import Mathlib

/-!
# Verification of the epub-to-xtc-converter core

Shallow embedding of the pagination engine (`src/pagination.py`,
`src/text_renderer.py`) and the XTG/XTH/XTC binary codec
(`src/xtc_format.py`, constants from `src/config.py`), together with
proofs of the specified properties.

Conventions:
* bytes and 8-bit samples are `Nat` values (`< 256` where it matters);
* pixel buffers are row-major `List (List Nat)`;
* Python `int` truncation of a float product with the constant
  multipliers from `config.py` is modelled by exact rational floor
  (`Nat` division): every multiplier is a correctly rounded double with
  relative error below half an ulp, so the double product rounds to the
  exact value whenever the exact product is representable, and the floor
  agrees with the rational floor (checked separately for the tie cases
  of `1.4`, which round to the exact integer by ties-to-even);
* Python functions that can raise (`struct.unpack` on short input)
  return `Option`.
-/

namespace EpubXtc

/-! ## Constants from `src/config.py` -/

def DISPLAY_WIDTH : Nat := 480
def DISPLAY_HEIGHT : Nat := 800
def MARGIN_TOP : Nat := 20
def MARGIN_BOTTOM : Nat := 40
def MARGIN_LEFT : Nat := 16
def MARGIN_RIGHT : Nat := 16

def DEFAULT_FONT_SIZE : Nat := 34
def PARAGRAPH_SPACING : Nat := 16

def XTG_MARK : Nat := 0x00475458
def XTH_MARK : Nat := 0x00485458
def XTC_MARK : Nat := 0x00435458
def XTCH_MARK : Nat := 0x48435458

def XTG_HEADER_SIZE : Nat := 22
def XTC_HEADER_SIZE : Nat := 56
def PAGE_TABLE_ENTRY_SIZE : Nat := 16
def TITLE_MAX_SIZE : Nat := 128

/-- Derived content height `DISPLAY_HEIGHT - MARGINS["top"] - MARGINS["bottom"]`
(`Paginator.__init__`). -/
def contentHeight : Nat := DISPLAY_HEIGHT - MARGIN_TOP - MARGIN_BOTTOM

/-- Derived content width `DISPLAY_WIDTH - MARGINS["left"] - MARGINS["right"]`
(`Paginator.__init__`). -/
def contentWidth : Nat := DISPLAY_WIDTH - MARGIN_LEFT - MARGIN_RIGHT

/-! ## 4-level quantizer (`quantize_to_4_levels`, `src/xtc_format.py`)

The Python code assigns, on `uint8` samples:
`output[pixels <= 42] = 3`, `output[(pixels > 42) & (pixels <= 127)] = 2`,
`output[(pixels > 127) & (pixels <= 212)] = 1`, `output[pixels > 212] = 0`.
The four masks partition the sample range, so the assignment is the
nested conditional below. -/

def quantize_to_4_levels (p : Nat) : Nat :=
  if p ≤ 42 then 3
  else if p ≤ 127 then 2
  else if p ≤ 212 then 1
  else 0

/-! ## Byte-level helpers (little-endian packing as in `struct.pack`) -/

def u16le (n : Nat) : List Nat :=
  [n % 256, n / 256 % 256]

def u32le (n : Nat) : List Nat :=
  [n % 256, n / 256 % 256, n / 2 ^ 16 % 256, n / 2 ^ 24 % 256]

def u64le (n : Nat) : List Nat :=
  [n % 256, n / 256 % 256, n / 2 ^ 16 % 256, n / 2 ^ 24 % 256,
   n / 2 ^ 32 % 256, n / 2 ^ 40 % 256, n / 2 ^ 48 % 256, n / 2 ^ 56 % 256]

/-- Read a little-endian `u16` at byte index `i` (missing bytes read as 0). -/
def readU16le (bs : List Nat) (i : Nat) : Nat :=
  bs.getD i 0 + 256 * bs.getD (i + 1) 0

/-- Read a little-endian `u32` at byte index `i` (missing bytes read as 0). -/
def readU32le (bs : List Nat) (i : Nat) : Nat :=
  bs.getD i 0 + 256 * bs.getD (i + 1) 0 + 2 ^ 16 * bs.getD (i + 2) 0 +
    2 ^ 24 * bs.getD (i + 3) 0

/-! ## `read_xtc_info` (`src/xtc_format.py`)

Reads the 56-byte header and the 128-byte title field, unpacks
`"<IHH"` from the first 8 header bytes (raising `struct.error` — modelled
as `none` — when fewer than 8 bytes are available), and maps the magic
through `{XTC_MARK: "XTC", XTCH_MARK: "XTCH"}` with default
`f"Unknown (0x{mark:08X})"`.  The title is the bytes before the first
NUL of the title field. -/

structure XtcInfo where
  format : String
  version : Nat
  pages : Nat
  title : List Nat
  deriving DecidableEq, Repr

/-- Uppercase hexadecimal digit. -/
def hexDigit (n : Nat) : Char :=
  if n < 10 then Char.ofNat (48 + n) else Char.ofNat (55 + n)

/-- Python `f"{mark:08X}"`: fixed-width 8-digit uppercase hexadecimal. -/
def hex8 (n : Nat) : String :=
  String.mk ((List.range 8).map fun i => hexDigit (n / 16 ^ (7 - i) % 16))

def formatName (mark : Nat) : String :=
  if mark = XTC_MARK then "XTC"
  else if mark = XTCH_MARK then "XTCH"
  else "Unknown (0x" ++ hex8 mark ++ ")"

/-- Bytes before the first 0 byte (`title_bytes.split(b"\x00")[0]`). -/
def takeUntilNul : List Nat → List Nat
  | [] => []
  | b :: bs => if b = 0 then [] else b :: takeUntilNul bs

def read_xtc_info (file : List Nat) : Option XtcInfo :=
  let header := file.take XTC_HEADER_SIZE
  let titleField := (file.drop XTC_HEADER_SIZE).take TITLE_MAX_SIZE
  if header.length < 8 then none
  else
    let mark := readU32le header 0
    let version := readU16le header 4
    let pageCount := readU16le header 6
    some { format := formatName mark, version := version, pages := pageCount,
           title := takeUntilNul titleField }

/-! ## Pixel buffers and the 1-bit encoder (`encode_xtg_page`) -/

/-- Row-major 8-bit grayscale pixel buffer (a PIL `L`-mode image). -/
structure GrayImage where
  width : Nat
  height : Nat
  rows : List (List Nat)
  deriving DecidableEq, Repr

/-- Well-formedness: the row list realizes the advertised geometry. -/
def GrayImage.wf (img : GrayImage) : Prop :=
  img.rows.length = img.height ∧ ∀ r ∈ img.rows, r.length = img.width

/-- MSB-first packing of a bit list into one byte
(`np.packbits(..., bitorder="big")` on one group of 8). -/
def packByte (bits : List Nat) : Nat :=
  bits.foldl (fun a b => 2 * a + b) 0

/-- Split a byte/bit list into consecutive groups of 8
(the `reshape(height, -1, 8)` step). -/
def chunks8 : List Nat → List (List Nat)
  | [] => []
  | b :: bs => (b :: bs.take 7) :: chunks8 (bs.drop 7)
  termination_by l => l.length
  decreasing_by simp; omega

/-- Threshold as in `gray.point(lambda x: 255 if x >= 128 else 0, "1")`: threshold at 128,
1 = white, 0 = black. -/
def thresholdRow (row : List Nat) : List Nat :=
  row.map fun p => if 128 ≤ p then 1 else 0

/-- Pad a thresholded row of width `w` to the next multiple of 8 with
black (0) pixels. -/
def padTo8 (w : Nat) (row : List Nat) : List Nat :=
  row ++ List.replicate ((w + 7) / 8 * 8 - w) 0

/-- Header `encode_xtg_header`: `struct.pack("<IHHBBIQ", XTG_MARK, w, h, 0, 0, ds, 0)`. -/
def encode_xtg_header (w h ds : Nat) : List Nat :=
  u32le XTG_MARK ++ u16le w ++ u16le h ++ [0, 0] ++ u32le ds ++ u64le 0

/-- Header `encode_xth_header`: same layout with the XTH mark. -/
def encode_xth_header (w h ds : Nat) : List Nat :=
  u32le XTH_MARK ++ u16le w ++ u16le h ++ [0, 0] ++ u32le ds ++ u64le 0

/-- Encoder `encode_xtg_page`: threshold at 128, pad each row to a multiple of 8,
pack 8 horizontal pixels per byte MSB-first, truncate to
`dataSize = ceil(w/8) * h` bytes after the 22-byte header. -/
def encode_xtg_page (img : GrayImage) : List Nat :=
  let dataSize := (img.width + 7) / 8 * img.height
  let data :=
    ((img.rows.map fun row => (chunks8 (padTo8 img.width (thresholdRow row))).map packByte).flatten).take
      dataSize
  encode_xtg_header img.width img.height dataSize ++ data

/-! ## 2-bit encoder (`encode_xth_page`) -/

/-- Encoder `encode_xth_page`: quantize to 4 levels, pad height to a multiple of 8
with level-0 rows, split into two bit planes (plane0 = LSB, plane1 = MSB),
mirror columns (`np.fliplr`), and pack 8 vertically consecutive pixels per
byte, MSB = top row, emitting the bytes column by column
(`reshape(bytesPerCol, 8, w).transpose(2, 0, 1)` then `packbits`),
plane 0 first. -/
def encode_xth_page (img : GrayImage) : List Nat :=
  let w := img.width
  let h := img.height
  let quantized := img.rows.map fun row => row.map quantize_to_4_levels
  let paddedH := (h + 7) / 8 * 8
  let qpad := quantized ++ List.replicate (paddedH - h) (List.replicate w 0)
  let bit0 := qpad.map fun row => row.map fun v => v % 2
  let bit1 := qpad.map fun row => row.map fun v => v / 2 % 2
  let flip0 := bit0.map List.reverse
  let flip1 := bit1.map List.reverse
  let bytesPerCol := paddedH / 8
  let packPlane := fun (plane : List (List Nat)) =>
    (List.range w).flatMap fun x =>
      (List.range bytesPerCol).map fun g =>
        packByte ((List.range 8).map fun j => (plane.getD (8 * g + j) []).getD x 0)
  let data := packPlane flip0 ++ packPlane flip1
  encode_xth_header w h data.length ++ data

/-! ## Container writer (`write_xtc_container`) -/

structure PageTableEntry where
  offset : Nat
  size : Nat
  width : Nat
  height : Nat
  deriving DecidableEq, Repr

structure XtcHeader where
  magic : Nat
  version : Nat
  pageCount : Nat
  flags : Nat
  headerSize : Nat
  reserved1 : Nat
  tocOffset : Nat
  pageTableOffset : Nat
  dataOffset : Nat
  reserved2 : Nat
  titleOffset : Nat
  deriving DecidableEq, Repr

/-- The container file before byte serialization: the four regions written
by `write_xtc_container` in order. -/
structure XtcContainer where
  header : XtcHeader
  titleBytes : List Nat
  table : List PageTableEntry
  pageData : List Nat
  deriving DecidableEq, Repr

/-- Title field `metadata.title.encode("utf-8")[:127] + b"\x00"` padded with NULs to
exactly 128 bytes (the title is taken as its UTF-8 byte sequence). -/
def buildTitleField (titleUtf8 : List Nat) : List Nat :=
  let t := titleUtf8.take (TITLE_MAX_SIZE - 1) ++ [0]
  t ++ List.replicate (TITLE_MAX_SIZE - t.length) 0

/-- The page-table loop: one entry per blob, offsets accumulated from
`dataOffset` by blob size, width/height unpacked from bytes 4..7 of the
blob's own embedded header (`struct.unpack("<IHH", page_data[:8])`). -/
def buildPageTable (dataOffset : Nat) : List (List Nat) → List PageTableEntry
  | [] => []
  | p :: ps =>
    { offset := dataOffset, size := p.length,
      width := readU16le p 4, height := readU16le p 6 } :: buildPageTable (dataOffset + p.length) ps

/-- The pure computation of `write_xtc_container` (offsets, header fields,
title field, page table, concatenated page data). -/
def writeXtcCore (pages : List (List Nat)) (titleUtf8 : List Nat) (isGrayscale : Bool) :
    XtcContainer :=
  let mark := if isGrayscale then XTCH_MARK else XTC_MARK
  let pageCount := pages.length
  let titleOffset := XTC_HEADER_SIZE
  let pageTableOffset := titleOffset + TITLE_MAX_SIZE
  let dataOffset := pageTableOffset + pageCount * PAGE_TABLE_ENTRY_SIZE
  { header :=
      { magic := mark, version := 1, pageCount := pageCount, flags := 0,
        headerSize := 88, reserved1 := 0, tocOffset := 0,
        pageTableOffset := pageTableOffset, dataOffset := dataOffset,
        reserved2 := 0, titleOffset := titleOffset },
    titleBytes := buildTitleField titleUtf8,
    table := buildPageTable dataOffset pages,
    pageData := pages.flatten }

/-- Writer `write_xtc_container`, including the `struct` failure modes: unpacking
`"<IHH"` from a blob needs at least 8 bytes, and the header packs
`pageCount` as a `u16`. -/
def write_xtc_container (pages : List (List Nat)) (titleUtf8 : List Nat) (isGrayscale : Bool) :
    Option XtcContainer :=
  if (pages.all fun p => 8 ≤ p.length) ∧ pages.length < 2 ^ 16 then
    some (writeXtcCore pages titleUtf8 isGrayscale)
  else none

/-! ## Text model (`src/epub_parser.py`) -/

structure TextStyle where
  font_size : Nat := 20
  bold : Bool := false
  italic : Bool := false
  is_heading : Bool := false
  heading_level : Nat := 0
  indent : Nat := 0
  deriving DecidableEq, Repr

structure TextBlock where
  text : String
  style : TextStyle
  block_type : String := "paragraph"
  deriving DecidableEq, Repr

/-! ## Line wrapper (`TextRenderer.wrap_text`, `src/text_renderer.py`)

`measure` abstracts `measure_text(·, font)` for the font in use; PIL
returns machine ints, so widths are `Int`. -/

/-- Python `str.split()`: split on whitespace runs, dropping empty
pieces (`acc` holds the current word, reversed). -/
def splitWordsAux : List Char → List Char → List String
  | [], [] => []
  | [], acc => [String.mk acc.reverse]
  | c :: cs, acc =>
    if c.isWhitespace then
      if acc.isEmpty then splitWordsAux cs []
      else String.mk acc.reverse :: splitWordsAux cs []
    else splitWordsAux cs (c :: acc)

def splitWords (text : String) : List String :=
  splitWordsAux text.toList []

/-- One step of the character-level fallback loop: accept the candidate
`current_chars + [char]` if it measures within `maxW`, otherwise flush
the accumulated characters (if any) and start over with this character. -/
def charStep (measure : String → Int) (maxW : Int) (acc : List String × List Char) (c : Char) :
    List String × List Char :=
  let test := String.mk (acc.2 ++ [c])
  if measure test ≤ maxW then (acc.1, acc.2 ++ [c])
  else ((if acc.2.isEmpty then acc.1 else acc.1 ++ [String.mk acc.2]), [c])

structure WrapState where
  lines : List String
  current : List String
  deriving Repr

/-- One step of the word loop of `wrap_text`: greedy accumulation, with
the character-level fallback (including the `lines.pop()` guard) when a
single word alone exceeds `maxW`. -/
def wordStep (measure : String → Int) (maxW : Int) (st : WrapState) (word : String) :
    WrapState :=
  let testLine := String.intercalate " " (st.current ++ [word])
  if measure testLine ≤ maxW then { st with current := st.current ++ [word] }
  else
    let lines1 :=
      if st.current.isEmpty then st.lines
      else st.lines ++ [String.intercalate " " st.current]
    if maxW < measure word then
      let lines2 := if lines1.getLast? = some word then lines1.dropLast else lines1
      let r := word.toList.foldl (charStep measure maxW) (lines2, [])
      { lines := r.1, current := if r.2.isEmpty then [] else [String.mk r.2] }
    else { lines := lines1, current := [word] }

/-- The wrapper `TextRenderer.wrap_text(text, font, max_width)`. -/
def wrap_text (measure : String → Int) (text : String) (maxW : Int) : List String :=
  let words := splitWords text
  let st := words.foldl (wordStep measure maxW) ⟨[], []⟩
  if st.current.isEmpty then st.lines
  else st.lines ++ [String.intercalate " " st.current]

/-! ## Block height estimation (`TextRenderer.estimate_block_height`)

`int(x)` on the float products with the multipliers of `config.py` is
modelled by the exact rational floor, as justified in the header. -/

/-- Table `get_heading_sizes(base)[level]` for `level` in `HEADING_SIZE_MULTIPLIERS`
(`1.8, 1.5, 1.3, 1.15, 1.0, 0.9`), `none` for absent keys. -/
def headingSize (base : Nat) : Nat → Option Nat
  | 1 => some (base * 18 / 10)
  | 2 => some (base * 15 / 10)
  | 3 => some (base * 13 / 10)
  | 4 => some (base * 115 / 100)
  | 5 => some (base * 100 / 100)
  | 6 => some (base * 9 / 10)
  | _ => none

/-- Size selection `TextRenderer._get_font_size_for_style`: the heading table value when
`style.is_heading` and the level is a table key, else the base size. -/
def fontSizeForStyle (base : Nat) (style : TextStyle) : Nat :=
  if style.is_heading then
    match headingSize base style.heading_level with
    | some s => s
    | none => base
  else base

/-- Line height `int(font_size * LINE_HEIGHT_RATIO)` with
`LINE_HEIGHT_RATIO = 1.4`. -/
def lineHeightOf (fontSize : Nat) : Nat :=
  fontSize * 7 / 5

/-- Estimator `TextRenderer.estimate_block_height(block, content_width)`:
wrap at `content_width - indent`, then
`len(lines) * line_height + PARAGRAPH_SPACING`. -/
def estimate_block_height (measure : String → Int) (base : Nat) (block : TextBlock)
    (content_width : Int) : Nat :=
  let availableWidth := content_width - (block.style.indent : Int)
  let lines := wrap_text measure block.text availableWidth
  let fontSize := fontSizeForStyle base block.style
  lines.length * lineHeightOf fontSize + PARAGRAPH_SPACING

/-! ## Paginator (`src/pagination.py`) -/

structure PageContent where
  blocks : List TextBlock
  page_number : Nat := 0
  is_chapter_start : Bool := false
  chapter_title : Option String := none
  deriving DecidableEq, Repr

structure ChapterMapping where
  title : String
  start_page : Nat
  end_page : Nat := 0
  deriving DecidableEq, Repr

structure PaginationResult where
  pages : List PageContent
  chapters : List ChapterMapping
  total_pages : Nat := 0
  deriving DecidableEq, Repr

/-- Predicate `Paginator._is_chapter_heading`. -/
def is_chapter_heading (b : TextBlock) : Bool :=
  b.block_type == "heading1" || b.block_type == "heading2" ||
    (b.style.is_heading && decide (b.style.heading_level ≤ 2))

/-- Python truthiness of `current_chapter` (`None` and `""` are falsy). -/
def strTruthy : Option String → Bool
  | none => false
  | some s => s != ""

/-- The loop state of `Paginator.paginate`. -/
structure PagState where
  pages : List PageContent
  chapters : List ChapterMapping
  cur_blocks : List TextBlock
  cur_y : Nat
  page_number : Nat
  current_chapter : Option String
  chapter_start : Nat
  deriving Repr

def initPagState : PagState :=
  { pages := [], chapters := [], cur_blocks := [], cur_y := 0,
    page_number := 1, current_chapter := none, chapter_start := 1 }

/-- The `PageContent` record emitted for the current page. -/
def mkPage (st : PagState) : PageContent :=
  { blocks := st.cur_blocks, page_number := st.page_number,
    is_chapter_start := st.page_number == st.chapter_start,
    chapter_title :=
      if st.page_number == st.chapter_start then st.current_chapter else none }

/-- Emit the current page and reset the accumulator. -/
def flushPage (st : PagState) : PagState :=
  { st with pages := st.pages ++ [mkPage st],
            page_number := st.page_number + 1, cur_blocks := [], cur_y := 0 }

/-- Chapter close `if current_chapter and current_chapter_start < page_number:` append
the mapping ending on the previous page. -/
def closeChapter (st : PagState) : PagState :=
  if strTruthy st.current_chapter ∧ st.chapter_start < st.page_number then
    { st with chapters := st.chapters ++
        [{ title := st.current_chapter.getD "", start_page := st.chapter_start,
           end_page := st.page_number - 1 }] }
  else st

/-- The body of the `for block in content_blocks` loop of
`Paginator.paginate`, parametrized by the height estimator and the
content height. -/
def pagStep (height : TextBlock → Nat) (H : Nat) (st : PagState) (block : TextBlock) :
    PagState :=
  let blockHeight := height block
  let st1 :=
    if is_chapter_heading block then
      let stA := closeChapter st
      let stB := if stA.cur_blocks.isEmpty then stA else flushPage stA
      { stB with current_chapter := some block.text, chapter_start := stB.page_number }
    else st
  let st2 :=
    if H < st1.cur_y + blockHeight then
      if st1.cur_blocks.isEmpty then st1 else flushPage st1
    else st1
  { st2 with cur_blocks := st2.cur_blocks ++ [block], cur_y := st2.cur_y + blockHeight }

/-- Top level `Paginator.paginate`: run the loop, emit the final page, close the
final chapter (`end_page = page_number`, not advanced by the final
emit). -/
def paginate (height : TextBlock → Nat) (H : Nat) (blocks : List TextBlock) :
    PaginationResult :=
  let st := blocks.foldl (pagStep height H) initPagState
  let pages := if st.cur_blocks.isEmpty then st.pages else st.pages ++ [mkPage st]
  let chapters :=
    if strTruthy st.current_chapter then
      st.chapters ++
        [{ title := st.current_chapter.getD "", start_page := st.chapter_start,
           end_page := st.page_number }]
    else st.chapters
  { pages := pages, chapters := chapters, total_pages := pages.length }

/-! ## Derived notions used by the statements -/

/-- Sum of the estimated heights of a block list. -/
def blockHeights (height : TextBlock → Nat) (bs : List TextBlock) : Nat :=
  (bs.map height).sum

/-- All blocks held by a paginator state, in order: blocks of the emitted
pages followed by the page in progress. -/
def stBlocks (st : PagState) : List TextBlock :=
  (st.pages.map PageContent.blocks).flatten ++ st.cur_blocks

/-- Chapter-mapping chain: mappings are ordered and pairwise disjoint,
each satisfies `start_page ≤ end_page`, all starts are at least `lo` and
all ends are strictly below `hi`. -/
def chainFrom (lo : Nat) : List ChapterMapping → Nat → Prop
  | [], hi => lo ≤ hi
  | m :: rest, hi =>
    lo ≤ m.start_page ∧ m.start_page ≤ m.end_page ∧ chainFrom (m.end_page + 1) rest hi

/-- Core loop invariant of `Paginator.paginate`: cursor/page bookkeeping. -/
structure PagCore (height : TextBlock → Nat) (H : Nat) (st : PagState) : Prop where
  y_eq : st.cur_y = blockHeights height st.cur_blocks
  cur_ok : blockHeights height st.cur_blocks ≤ H ∨ st.cur_blocks.length = 1
  pages_ok : ∀ p ∈ st.pages, blockHeights height p.blocks ≤ H ∨ p.blocks.length = 1
  pn_eq : st.page_number = st.pages.length + 1
  nums : st.pages.map PageContent.page_number = List.range' 1 st.pages.length

/-- Full loop invariant: the core plus the chapter-mapping chain. -/
structure PagInv (height : TextBlock → Nat) (H : Nat) (st : PagState) extends
    PagCore height H st : Prop where
  chain : chainFrom 1 st.chapters st.chapter_start
  cs_le : st.chapter_start ≤ st.page_number
  cs_pos : 1 ≤ st.chapter_start

/-- Sum of blob lengths (used to locate page-table offsets). -/
def sumLens (ps : List (List Nat)) : Nat :=
  (ps.map List.length).sum

/-- Bit `c` of row `r` of packed 1-bit row-major data with `rowBytes`
bytes per row, MSB-first within each byte. -/
def dataBit (data : List Nat) (rowBytes r c : Nat) : Nat :=
  data.getD (r * rowBytes + c / 8) 0 / 2 ^ (7 - c % 8) % 2

/-! ## Specification-side definitions (for the refinement claims)

These follow the spec's words, to be compared with the code-derived
definitions above. -/

/-- Modelled from the spec (claim C3): heading-level→size table with the
multipliers `1.8, 1.5, 1.3, 1.15, 1.0, 0.9` of the base size. -/
def specHeadingTable (base : Nat) : Nat → Option Nat
  | 1 => some (base * 18 / 10)
  | 2 => some (base * 15 / 10)
  | 3 => some (base * 13 / 10)
  | 4 => some (base * 115 / 100)
  | 5 => some (base * 100 / 100)
  | 6 => some (base * 9 / 10)
  | _ => none

/-- Modelled from the spec (claim C3): `fontSizeForStyle` is taken from
the heading-level-to-size table for heading blocks and is the base font
size otherwise. -/
def specFontSize (base : Nat) (style : TextStyle) : Nat :=
  if style.is_heading then
    match specHeadingTable base style.heading_level with
    | some s => s
    | none => base
  else base

/-- Modelled from the spec (claim C3, as stated):
`lineHeight = round(fontSizeForStyle * lineHeightRatio)`, rounding to the
nearest integer (no exact half can occur: `14 * fs mod 10` is even). -/
def specLineHeightRound (fontSize : Nat) : Nat :=
  (fontSize * 14 + 5) / 10

/-- Modelled from the spec (claim C3, amended): the line height truncates
`fontSize * 1.4` toward zero instead of rounding to nearest. -/
def specLineHeightTrunc (fontSize : Nat) : Nat :=
  fontSize * 14 / 10

/-- Block height as claim C3 states it (round-to-nearest line height). -/
def specBlockHeightRound (measure : String → Int) (base : Nat) (block : TextBlock)
    (content_width : Int) : Nat :=
  (wrap_text measure block.text (content_width - (block.style.indent : Int))).length *
      specLineHeightRound (specFontSize base block.style) + PARAGRAPH_SPACING

/-- Block height as claim C3 holds after amendment (truncated line height). -/
def specBlockHeightTrunc (measure : String → Int) (base : Nat) (block : TextBlock)
    (content_width : Int) : Nat :=
  (wrap_text measure block.text (content_width - (block.style.indent : Int))).length *
      specLineHeightTrunc (specFontSize base block.style) + PARAGRAPH_SPACING

/-- Size bound for the wrapper output: one line per word plus one line
per character (the character-level fallback can emit at most one line per
consumed character), plus the final flush. -/
def wrapSizeBound (text : String) : Nat :=
  1 + ((splitWords text).map fun w => 1 + w.length).sum

/-! ## Concrete inputs used by counterexamples and witnesses -/

/-- A width measure that reports 0 for every string (every candidate
fits). -/
def zeroMeasure : String → Int := fun _ => 0

/-- The height estimator of the reference configuration (base font size
34, content width 448) under `zeroMeasure`. -/
def cexHeight (b : TextBlock) : Nat :=
  estimate_block_height zeroMeasure DEFAULT_FONT_SIZE b 448

/-- A level-1 heading block titled "A". -/
def cexHeadA : TextBlock := ⟨"A", {}, "heading1"⟩

/-- A level-1 heading block titled "B". -/
def cexHeadB : TextBlock := ⟨"B", {}, "heading1"⟩

/-- A plain paragraph block. -/
def cexPara : TextBlock := ⟨"x", {}, "paragraph"⟩

/-- The first page produced by `paginate cexHeight 740 [cexHeadA, cexHeadB]`. -/
def cexPage : PageContent :=
  { blocks := [cexHeadA], page_number := 1, is_chapter_start := true,
    chapter_title := some "A" }

/-- An 8×8 buffer whose every sample is 0, hence quantizes to level 3. -/
def allBlack8x8 : GrayImage := ⟨8, 8, List.replicate 8 (List.replicate 8 0)⟩

/-- A 2×1 buffer with one white and one black sample. -/
def tinyImage : GrayImage := ⟨2, 1, [[255, 0]]⟩

/-- Two well-formed page blobs (at least 8 bytes each). -/
def cexBlobs : List (List Nat) :=
  [List.replicate 22 1 ++ [7], List.replicate 22 2]

/-! ## C7: quantizer golden values, step intervals and monotonicity -/

/-- C7: the 4-level quantizer maps `s ≤ 42 ↦ 3`, `43..127 ↦ 2`,
`128..212 ↦ 1`, `s > 212 ↦ 0`; the golden values
`0↦3, 42↦3, 43↦2, 127↦2, 128↦1, 212↦1, 213↦0, 255↦0` hold, and the
function is a pure monotonically non-increasing step function of the
sample. -/
theorem quantize_golden_monotone :
    (quantize_to_4_levels 0 = 3 ∧ quantize_to_4_levels 42 = 3 ∧
     quantize_to_4_levels 43 = 2 ∧ quantize_to_4_levels 127 = 2 ∧
     quantize_to_4_levels 128 = 1 ∧ quantize_to_4_levels 212 = 1 ∧
     quantize_to_4_levels 213 = 0 ∧ quantize_to_4_levels 255 = 0) ∧
    (∀ s, s ≤ 42 → quantize_to_4_levels s = 3) ∧
    (∀ s, 43 ≤ s → s ≤ 127 → quantize_to_4_levels s = 2) ∧
    (∀ s, 128 ≤ s → s ≤ 212 → quantize_to_4_levels s = 1) ∧
    (∀ s, 213 ≤ s → quantize_to_4_levels s = 0) ∧
    (∀ s t, s ≤ t → quantize_to_4_levels t ≤ quantize_to_4_levels s) := by
  refine ⟨by decide, ?_, ?_, ?_, ?_, ?_⟩ <;>
    · intros
      unfold quantize_to_4_levels
      split_ifs <;> omega

/-- Witness for C7 at concrete samples. -/
theorem quantize_golden_monotone_witness :
    (100 : Nat) ≤ 200 ∧ quantize_to_4_levels 200 ≤ quantize_to_4_levels 100 :=
  ⟨by decide, quantize_golden_monotone.2.2.2.2.2 100 200 (by decide)⟩

/-! ## C10: the all-level-3 8×8 grayscale page -/

/-- C10: encoding the 8×8 buffer whose every sample quantizes to level 3
yields `dataSize = 2 * 8 * 1` (one packed byte per plane per 8-row
column), and every data byte of both bit planes is `0xFF`. -/
theorem encode_xth_allblack_8x8 :
    (∀ p ∈ allBlack8x8.rows.flatten, quantize_to_4_levels p = 3) ∧
    encode_xth_page allBlack8x8 =
      encode_xth_header 8 8 (2 * (8 * 1)) ++ List.replicate 16 255 := by
  decide

/-! ## C4: `read_xtc_info` on an unrecognized magic -/

/-- C4 counterexample: a 184-byte file whose magic matches neither the
XTC nor the XTCH variant; `read_xtc_info` returns a result (with an
"Unknown" format label) instead of failing with a format error. -/
theorem read_xtc_info_unknown_magic_counterexample :
    readU32le ((List.replicate 184 0 : List Nat).take 56) 0 ≠ XTC_MARK ∧
    readU32le ((List.replicate 184 0 : List Nat).take 56) 0 ≠ XTCH_MARK ∧
    read_xtc_info (List.replicate 184 0) =
      some ⟨"Unknown (0x00000000)", 0, 0, []⟩ := by
  decide

/-- C4 amended: on every file of at least 8 bytes whose magic matches
neither known variant, `read_xtc_info` succeeds and returns the header
fields with the format labelled `"Unknown (0x…)"`; it fails only when
fewer than 8 header bytes exist (`struct.error`). -/
theorem read_xtc_info_unknown_magic_returns (file : List Nat)
    (h8 : 8 ≤ file.length)
    (hc : readU32le (file.take 56) 0 ≠ XTC_MARK)
    (hch : readU32le (file.take 56) 0 ≠ XTCH_MARK) :
    read_xtc_info file =
      some { format := "Unknown (0x" ++ hex8 (readU32le (file.take 56) 0) ++ ")",
             version := readU16le (file.take 56) 4,
             pages := readU16le (file.take 56) 6,
             title := takeUntilNul ((file.drop 56).take 128) } := by
  have hlen : ¬ (List.take 56 file).length < 8 := by
    simp only [List.length_take]
    omega
  simp only [read_xtc_info, formatName, XTC_HEADER_SIZE, TITLE_MAX_SIZE, if_neg hlen,
    if_neg hc, if_neg hch]

set_option maxRecDepth 8000 in
/-- Witness for C4 amended, at the 184-byte zero file. -/
theorem read_xtc_info_unknown_magic_witness :
    read_xtc_info (List.replicate 184 0) =
      some { format := "Unknown (0x" ++ hex8 (readU32le ((List.replicate 184 0 : List Nat).take 56) 0) ++ ")",
             version := readU16le ((List.replicate 184 0 : List Nat).take 56) 4,
             pages := readU16le ((List.replicate 184 0 : List Nat).take 56) 6,
             title := takeUntilNul (((List.replicate 184 0 : List Nat).drop 56).take 128) } :=
  read_xtc_info_unknown_magic_returns (List.replicate 184 0) (by decide) (by decide) (by decide)

/-! ## C3: the estimated block height formula -/

/-- C3 counterexample: at the default base font size 34 the code's line
height is `int(34 * 1.4) = 47` while the claimed round-to-nearest gives
`round(47.6) = 48`; a one-line paragraph therefore measures 63, not the
claimed 64. -/
theorem block_height_round_counterexample :
    estimate_block_height zeroMeasure DEFAULT_FONT_SIZE cexPara 448 = 63 ∧
    specBlockHeightRound zeroMeasure DEFAULT_FONT_SIZE cexPara 448 = 64 ∧
    estimate_block_height zeroMeasure DEFAULT_FONT_SIZE cexPara 448 ≠
      specBlockHeightRound zeroMeasure DEFAULT_FONT_SIZE cexPara 448 := by
  decide

/-- Helper: the code's heading-size lookup agrees with the spec-side
table. -/
theorem headingSize_eq_specTable (base lvl : Nat) :
    headingSize base lvl = specHeadingTable base lvl := by
  match lvl with
  | 0 => rfl
  | 1 => rfl
  | 2 => rfl
  | 3 => rfl
  | 4 => rfl
  | 5 => rfl
  | 6 => rfl
  | n + 7 => rfl

/-- C3 amended: the estimated block height equals
`wrappedLineCount(block, contentWidth - indent) * lineHeight + paragraphSpacing`
with `lineHeight = trunc(fontSizeForStyle * lineHeightRatio)` (truncation
toward zero, not rounding to nearest), `fontSizeForStyle` from the
heading-level-to-size table for heading blocks and the base size
otherwise. -/
theorem block_height_truncated_line_height (measure : String → Int) (base : Nat)
    (block : TextBlock) (content_width : Int) :
    estimate_block_height measure base block content_width =
      specBlockHeightTrunc measure base block content_width := by
  have hfs : fontSizeForStyle base block.style = specFontSize base block.style := by
    unfold fontSizeForStyle specFontSize
    rw [headingSize_eq_specTable]
  have hlh : ∀ fs, lineHeightOf fs = specLineHeightTrunc fs := by
    intro fs
    unfold lineHeightOf specLineHeightTrunc
    omega
  simp only [estimate_block_height, specBlockHeightTrunc, hfs, hlh]

/-! ## C5: container writer invariants -/

/-- The page table has one entry per blob. -/
theorem buildPageTable_length (d : Nat) (ps : List (List Nat)) :
    (buildPageTable d ps).length = ps.length := by
  induction ps generalizing d with
  | nil => rfl
  | cons p ps ih => simp [buildPageTable, ih]

/-- Entry `i` of the page table: cumulative offset, blob size, and the
width/height bytes of the blob's own embedded header. -/
theorem buildPageTable_getD (d : Nat) (ps : List (List Nat)) (i : Nat) (hi : i < ps.length) :
    (buildPageTable d ps).getD i ⟨0, 0, 0, 0⟩ =
      { offset := d + sumLens (ps.take i), size := (ps.getD i []).length,
        width := readU16le (ps.getD i []) 4, height := readU16le (ps.getD i []) 6 } := by
  induction ps generalizing d i with
  | nil => simp at hi
  | cons p ps ih =>
    cases i with
    | zero => simp [buildPageTable, sumLens]
    | succ i =>
      have hi' : i < ps.length := by simpa using hi
      simp only [buildPageTable, List.getD_cons_succ, List.take_succ_cons,
        List.getD_cons_succ]
      rw [ih (d + p.length) i hi']
      simp only [PageTableEntry.mk.injEq, sumLens, List.map_cons, List.sum_cons,
        and_true, true_and]
      omega

/-- Prefix sums of blob sizes grow by the size of the next blob. -/
theorem sumLens_take_succ (ps : List (List Nat)) (i : Nat) (hi : i < ps.length) :
    sumLens (ps.take (i + 1)) = sumLens (ps.take i) + (ps.getD i []).length := by
  induction ps generalizing i with
  | nil => simp at hi
  | cons p ps ih =>
    cases i with
    | zero => simp [sumLens]
    | succ i =>
      have hi' : i < ps.length := by simpa using hi
      have := ih i hi'
      simp only [List.take_succ_cons, sumLens, List.map_cons, List.sum_cons,
        List.getD_cons_succ] at this ⊢
      omega

/-- C5: the writer produces `pageTableOffset = 184`,
`dataOffset = 184 + 16 * pageCount`, one table entry per page
(entry count equals the header's `pageCount`), entry offsets starting at
`dataOffset` and strictly increasing and contiguous
(`entry[i].offset + entry[i].size = entry[i+1].offset`), and each entry's
width/height equal to the bytes 4..7 of that blob's own embedded
header. -/
theorem container_table_invariants (pages : List (List Nat)) (titleUtf8 : List Nat)
    (isGrayscale : Bool)
    (h8 : ∀ p ∈ pages, 8 ≤ p.length) (hcount : pages.length < 2 ^ 16) :
    write_xtc_container pages titleUtf8 isGrayscale =
      some (writeXtcCore pages titleUtf8 isGrayscale) ∧
    (writeXtcCore pages titleUtf8 isGrayscale).header.pageTableOffset = 184 ∧
    (writeXtcCore pages titleUtf8 isGrayscale).header.dataOffset = 184 + 16 * pages.length ∧
    (writeXtcCore pages titleUtf8 isGrayscale).header.pageCount = pages.length ∧
    (writeXtcCore pages titleUtf8 isGrayscale).table.length =
      (writeXtcCore pages titleUtf8 isGrayscale).header.pageCount ∧
    (pages ≠ [] →
      ((writeXtcCore pages titleUtf8 isGrayscale).table.getD 0 ⟨0, 0, 0, 0⟩).offset =
        (writeXtcCore pages titleUtf8 isGrayscale).header.dataOffset) ∧
    (∀ i, i < pages.length →
      ((writeXtcCore pages titleUtf8 isGrayscale).table.getD i ⟨0, 0, 0, 0⟩).size =
        (pages.getD i []).length ∧
      ((writeXtcCore pages titleUtf8 isGrayscale).table.getD i ⟨0, 0, 0, 0⟩).width =
        readU16le (pages.getD i []) 4 ∧
      ((writeXtcCore pages titleUtf8 isGrayscale).table.getD i ⟨0, 0, 0, 0⟩).height =
        readU16le (pages.getD i []) 6) ∧
    (∀ i, i + 1 < pages.length →
      ((writeXtcCore pages titleUtf8 isGrayscale).table.getD i ⟨0, 0, 0, 0⟩).offset +
          ((writeXtcCore pages titleUtf8 isGrayscale).table.getD i ⟨0, 0, 0, 0⟩).size =
        ((writeXtcCore pages titleUtf8 isGrayscale).table.getD (i + 1) ⟨0, 0, 0, 0⟩).offset ∧
      ((writeXtcCore pages titleUtf8 isGrayscale).table.getD i ⟨0, 0, 0, 0⟩).offset <
        ((writeXtcCore pages titleUtf8 isGrayscale).table.getD (i + 1) ⟨0, 0, 0, 0⟩).offset) := by
  have hall : pages.all (fun p => 8 ≤ p.length) := by
    rw [List.all_eq_true]
    intro p hp
    simpa using h8 p hp
  have hsome : write_xtc_container pages titleUtf8 isGrayscale =
      some (writeXtcCore pages titleUtf8 isGrayscale) := by
    unfold write_xtc_container
    rw [if_pos ⟨hall, hcount⟩]
  have htab : (writeXtcCore pages titleUtf8 isGrayscale).table =
      buildPageTable (184 + pages.length * 16) pages := by
    show buildPageTable (XTC_HEADER_SIZE + TITLE_MAX_SIZE + pages.length * PAGE_TABLE_ENTRY_SIZE)
        pages = _
    rfl
  refine ⟨hsome, rfl, ?_, rfl, ?_, ?_, ?_, ?_⟩
  · show XTC_HEADER_SIZE + TITLE_MAX_SIZE + pages.length * PAGE_TABLE_ENTRY_SIZE =
      184 + 16 * pages.length
    unfold XTC_HEADER_SIZE TITLE_MAX_SIZE PAGE_TABLE_ENTRY_SIZE
    omega
  · rw [htab, buildPageTable_length]
    rfl
  · intro hne
    have h0 : 0 < pages.length := List.length_pos.mpr hne
    rw [htab, buildPageTable_getD _ _ 0 h0]
    show 184 + pages.length * 16 + sumLens (pages.take 0) =
      XTC_HEADER_SIZE + TITLE_MAX_SIZE + pages.length * PAGE_TABLE_ENTRY_SIZE
    unfold XTC_HEADER_SIZE TITLE_MAX_SIZE PAGE_TABLE_ENTRY_SIZE
    simp [sumLens]
  · intro i hi
    rw [htab, buildPageTable_getD _ _ i hi]
    exact ⟨rfl, rfl, rfl⟩
  · intro i hi
    have hi1 : i < pages.length := by omega
    have hmem : pages.getD i [] ∈ pages := by
      rw [List.getD_eq_getElem pages [] hi1]
      exact List.getElem_mem hi1
    have hsz : 8 ≤ (pages.getD i []).length := h8 _ hmem
    rw [htab, buildPageTable_getD _ _ i hi1, buildPageTable_getD _ _ (i + 1) hi]
    have hsum := sumLens_take_succ pages i hi1
    constructor
    · simp only
      omega
    · simp only
      omega

/-- Witness for C5 at two concrete 8+-byte blobs: the first two table
entries are contiguous. -/
theorem container_table_invariants_witness :
    (∀ p ∈ cexBlobs, 8 ≤ p.length) ∧ cexBlobs.length < 2 ^ 16 ∧
    ((writeXtcCore cexBlobs [] true).table.getD 0 ⟨0, 0, 0, 0⟩).offset +
        ((writeXtcCore cexBlobs [] true).table.getD 0 ⟨0, 0, 0, 0⟩).size =
      ((writeXtcCore cexBlobs [] true).table.getD 1 ⟨0, 0, 0, 0⟩).offset :=
  ⟨by decide, by decide,
    ((container_table_invariants cexBlobs [] true (by decide)
        (by decide)).2.2.2.2.2.2.2 0 (by decide)).1⟩

/-! ## C2: the paginator preserves the block sequence -/

/-- Emitting the current page moves its blocks into the page list. -/
theorem stBlocks_flushPage (st : PagState) : stBlocks (flushPage st) = stBlocks st := by
  simp [stBlocks, flushPage, mkPage]

/-- Closing a chapter does not touch pages or blocks. -/
theorem stBlocks_closeChapter (st : PagState) : stBlocks (closeChapter st) = stBlocks st := by
  unfold closeChapter
  split <;> rfl

/-- One loop iteration appends exactly the consumed block. -/
theorem stBlocks_pagStep (height : TextBlock → Nat) (H : Nat) (st : PagState) (b : TextBlock) :
    stBlocks (pagStep height H st b) = stBlocks st ++ [b] := by
  have hflush : ∀ s : PagState,
      stBlocks (if s.cur_blocks.isEmpty then s else flushPage s) = stBlocks s := by
    intro s
    split
    · rfl
    · exact stBlocks_flushPage s
  have hfit : ∀ s : PagState,
      stBlocks (if H < s.cur_y + height b then
          (if s.cur_blocks.isEmpty then s else flushPage s) else s) = stBlocks s := by
    intro s
    split
    · exact hflush s
    · rfl
  simp only [pagStep]
  rw [show ∀ s : PagState, ∀ y,
      stBlocks { s with cur_blocks := s.cur_blocks ++ [b], cur_y := y } = stBlocks s ++ [b]
    from fun s y => by simp [stBlocks]]
  rw [hfit]
  by_cases hhead : is_chapter_heading b = true
  · rw [if_pos hhead]
    show stBlocks (if (closeChapter st).cur_blocks.isEmpty then closeChapter st
      else flushPage (closeChapter st)) ++ [b] = stBlocks st ++ [b]
    rw [hflush]
    rw [stBlocks_closeChapter st]
  · rw [if_neg hhead]

/-- The loop appends exactly the consumed prefix. -/
theorem stBlocks_foldl (height : TextBlock → Nat) (H : Nat) (bs : List TextBlock)
    (st : PagState) :
    stBlocks (bs.foldl (pagStep height H) st) = stBlocks st ++ bs := by
  induction bs generalizing st with
  | nil => simp
  | cons b bs ih =>
    simp only [List.foldl_cons]
    rw [ih, stBlocks_pagStep]
    simp

/-- C2: the concatenation of the block lists of all pages produced by
`paginate`, in page order, equals the input block sequence exactly — no
block is dropped, reordered, or duplicated. -/
theorem paginate_preserves_block_sequence (height : TextBlock → Nat) (H : Nat)
    (bs : List TextBlock) :
    ((paginate height H bs).pages.map PageContent.blocks).flatten = bs := by
  have hfold : stBlocks (bs.foldl (pagStep height H) initPagState) = bs := by
    rw [stBlocks_foldl]
    rfl
  unfold stBlocks at hfold
  unfold paginate
  dsimp only
  split
  · next hemp =>
    have hcur : (bs.foldl (pagStep height H) initPagState).cur_blocks = [] :=
      List.isEmpty_iff.mp hemp
    rw [hcur, List.append_nil] at hfold
    exact hfold
  · simp only [List.map_append, List.flatten_append]
    simp only [mkPage, List.map_cons, List.map_nil, List.flatten_cons, List.flatten_nil,
      List.append_nil]
    exact hfold

/-! ## Chapter-mapping chain lemmas -/

/-- The chain's lower bound never exceeds its upper bound. -/
theorem chainFrom_le {lo hi : Nat} (l : List ChapterMapping) (h : chainFrom lo l hi) :
    lo ≤ hi := by
  induction l generalizing lo with
  | nil => exact h
  | cons m rest ih =>
    obtain ⟨h1, h2, h3⟩ := h
    have := ih h3
    omega

/-- Weakening the upper bound of a chain. -/
theorem chainFrom_mono {lo hi hi' : Nat} (l : List ChapterMapping) (h : chainFrom lo l hi)
    (hh : hi ≤ hi') : chainFrom lo l hi' := by
  induction l generalizing lo with
  | nil => exact le_trans h hh
  | cons m rest ih => exact ⟨h.1, h.2.1, ih h.2.2⟩

/-- Appending a mapping that starts at or after the bound extends the
chain. -/
theorem chainFrom_snoc {lo hi : Nat} (l : List ChapterMapping) (m : ChapterMapping)
    (h : chainFrom lo l hi) (h1 : hi ≤ m.start_page) (h2 : m.start_page ≤ m.end_page) :
    chainFrom lo (l ++ [m]) (m.end_page + 1) := by
  induction l generalizing lo with
  | nil => exact ⟨le_trans h h1, h2, Nat.le_refl _⟩
  | cons m' rest ih => exact ⟨h.1, h.2.1, ih h.2.2⟩

/-- Every mapping of a chain is bracketed by the bounds and internally
ordered. -/
theorem chainFrom_forall {lo hi : Nat} (l : List ChapterMapping) (h : chainFrom lo l hi) :
    ∀ m ∈ l, lo ≤ m.start_page ∧ m.start_page ≤ m.end_page ∧ m.end_page < hi := by
  induction l generalizing lo with
  | nil => intro m hm; simp at hm
  | cons m' rest ih =>
    intro m hm
    rcases List.mem_cons.mp hm with hm | hm
    · subst hm
      have hrest := chainFrom_le rest h.2.2
      exact ⟨h.1, h.2.1, by omega⟩
    · have := ih h.2.2 m hm
      have h0 : lo ≤ m'.end_page + 1 := by
        have := h.1
        have := h.2.1
        omega
      exact ⟨le_trans h0 this.1, this.2.1, this.2.2⟩

/-- A chain is strictly ordered: each mapping ends before the next one
starts. -/
theorem chainFrom_chain' {lo hi : Nat} (l : List ChapterMapping) (h : chainFrom lo l hi) :
    List.Chain' (fun a b => a.end_page < b.start_page) l := by
  induction l generalizing lo with
  | nil => simp
  | cons m rest ih =>
    cases rest with
    | nil => simp
    | cons m' rest' =>
      rw [List.chain'_cons]
      refine ⟨?_, ih h.2.2⟩
      have := h.2.2.1
      omega

/-! ## Invariant preservation through the paginator loop -/

/-- Height sums distribute over append. -/
theorem blockHeights_append (height : TextBlock → Nat) (l l' : List TextBlock) :
    blockHeights height (l ++ l') = blockHeights height l + blockHeights height l' := by
  simp [blockHeights]

/-- Flushing the current page preserves the core invariant. -/
theorem flushPage_core (height : TextBlock → Nat) (H : Nat) (st : PagState)
    (inv : PagCore height H st) : PagCore height H (flushPage st) := by
  obtain ⟨y_eq, cur_ok, pages_ok, pn_eq, nums⟩ := inv
  refine ⟨rfl, ?_, ?_, ?_, ?_⟩
  · left
    simp [blockHeights, flushPage]
  · intro p hp
    rcases List.mem_append.mp hp with hp | hp
    · exact pages_ok p hp
    · rcases List.mem_singleton.mp hp with rfl
      exact cur_ok
  · show st.page_number + 1 = (st.pages ++ [mkPage st]).length + 1
    simp [pn_eq]
  · show List.map PageContent.page_number (st.pages ++ [mkPage st]) =
      List.range' 1 (st.pages ++ [mkPage st]).length
    rw [List.map_append, List.length_append]
    simp only [List.map_cons, List.map_nil, List.length_cons, List.length_nil]
    rw [List.range'_concat, nums]
    congr 1
    show [st.page_number] = [1 + 1 * st.pages.length]
    rw [pn_eq]
    simp only [List.cons.injEq, and_true]
    omega

/-- `closeChapter` only changes the mapping list. -/
theorem closeChapter_fields (st : PagState) :
    (closeChapter st).pages = st.pages ∧ (closeChapter st).cur_blocks = st.cur_blocks ∧
    (closeChapter st).cur_y = st.cur_y ∧ (closeChapter st).page_number = st.page_number ∧
    (closeChapter st).current_chapter = st.current_chapter ∧
    (closeChapter st).chapter_start = st.chapter_start := by
  unfold closeChapter
  split <;> exact ⟨rfl, rfl, rfl, rfl, rfl, rfl⟩

/-- After closing, the mapping chain is bounded by the current page
number. -/
theorem closeChapter_chain (height : TextBlock → Nat) (H : Nat) (st : PagState)
    (inv : PagInv height H st) : chainFrom 1 (closeChapter st).chapters st.page_number := by
  unfold closeChapter
  split
  · next hcl =>
    have hend : (st.page_number - 1) + 1 = st.page_number := by
      have := hcl.2
      omega
    have hsn := chainFrom_snoc st.chapters
      ⟨st.current_chapter.getD "", st.chapter_start, st.page_number - 1⟩
      inv.chain (Nat.le_refl _)
      (by show st.chapter_start ≤ st.page_number - 1
          have := hcl.2
          omega)
    rw [hend] at hsn
    exact hsn
  · exact chainFrom_mono st.chapters inv.chain inv.cs_le

/-- One loop iteration preserves the full invariant. -/
theorem pagStep_inv (height : TextBlock → Nat) (H : Nat) (st : PagState) (b : TextBlock)
    (inv : PagInv height H st) : PagInv height H (pagStep height H st b) := by
  have hy : ∀ s' : PagState, s'.cur_y = blockHeights height s'.cur_blocks →
      s'.cur_y + height b = blockHeights height (s'.cur_blocks ++ [b]) := by
    intro s' h
    rw [blockHeights_append, h]
    simp [blockHeights]
  -- Stage 2: the overflow check plus appending the block.
  have hstep2 : ∀ s : PagState, PagInv height H s →
      PagInv height H
        { (if H < s.cur_y + height b then
             (if s.cur_blocks.isEmpty then s else flushPage s) else s) with
          cur_blocks := (if H < s.cur_y + height b then
             (if s.cur_blocks.isEmpty then s else flushPage s) else s).cur_blocks ++ [b],
          cur_y := (if H < s.cur_y + height b then
             (if s.cur_blocks.isEmpty then s else flushPage s) else s).cur_y + height b } := by
    intro s hs
    by_cases hf : H < s.cur_y + height b
    · by_cases he : s.cur_blocks.isEmpty
      · simp only [if_pos hf, if_pos he]
        have hcur : s.cur_blocks = [] := List.isEmpty_iff.mp he
        refine ⟨⟨hy s hs.y_eq, ?_, hs.pages_ok, hs.pn_eq, hs.nums⟩,
          hs.chain, hs.cs_le, hs.cs_pos⟩
        right
        rw [hcur]
        rfl
      · simp only [if_pos hf, if_neg he]
        have hc := flushPage_core height H s hs.toPagCore
        refine ⟨⟨hy (flushPage s) hc.y_eq, ?_, hc.pages_ok, hc.pn_eq, hc.nums⟩,
          hs.chain, ?_, hs.cs_pos⟩
        · right
          rfl
        · have := hs.cs_le
          show s.chapter_start ≤ s.page_number + 1
          omega
    · simp only [if_neg hf]
      refine ⟨⟨hy s hs.y_eq, ?_, hs.pages_ok, hs.pn_eq, hs.nums⟩,
        hs.chain, hs.cs_le, hs.cs_pos⟩
      left
      rw [← hy s hs.y_eq]
      omega
  -- Stage 1: the chapter-heading branch.
  have hstage1 : PagInv height H (if is_chapter_heading b then
      { (if (closeChapter st).cur_blocks.isEmpty then closeChapter st
         else flushPage (closeChapter st)) with
        current_chapter := some b.text,
        chapter_start := (if (closeChapter st).cur_blocks.isEmpty then closeChapter st
          else flushPage (closeChapter st)).page_number }
    else st) := by
    by_cases hh : is_chapter_heading b
    · rw [if_pos hh]
      obtain ⟨hp, hcb, hcy, hpn, hcc, hcs⟩ := closeChapter_fields st
      have chainA := closeChapter_chain height H st inv
      have coreA : PagCore height H (closeChapter st) :=
        ⟨by rw [hcy, hcb]; exact inv.y_eq, by rw [hcb]; exact inv.cur_ok,
         by rw [hp]; exact inv.pages_ok, by rw [hpn, hp]; exact inv.pn_eq,
         by rw [hp]; exact inv.nums⟩
      have hpn1 : 1 ≤ st.page_number := by
        have := inv.pn_eq
        omega
      by_cases he : (closeChapter st).cur_blocks.isEmpty
      · rw [if_pos he]
        exact ⟨⟨coreA.y_eq, coreA.cur_ok, coreA.pages_ok, coreA.pn_eq, coreA.nums⟩,
          by show chainFrom 1 (closeChapter st).chapters (closeChapter st).page_number
             rw [hpn]
             exact chainA,
          Nat.le_refl _,
          by show 1 ≤ (closeChapter st).page_number
             rw [hpn]
             exact hpn1⟩
      · rw [if_neg he]
        have coreB := flushPage_core height H (closeChapter st) coreA
        exact ⟨⟨coreB.y_eq, coreB.cur_ok, coreB.pages_ok, coreB.pn_eq, coreB.nums⟩,
          by show chainFrom 1 (closeChapter st).chapters ((closeChapter st).page_number + 1)
             have h1 : chainFrom 1 (closeChapter st).chapters (closeChapter st).page_number := by
               rw [hpn]
               exact chainA
             exact chainFrom_mono _ h1 (Nat.le_succ _),
          Nat.le_refl _,
          by show 1 ≤ (closeChapter st).page_number + 1
             omega⟩
    · rw [if_neg hh]
      exact inv
  unfold pagStep
  dsimp only
  exact hstep2 _ hstage1

/-- The invariant holds along the whole loop. -/
theorem foldl_inv (height : TextBlock → Nat) (H : Nat) (bs : List TextBlock) (st : PagState)
    (inv : PagInv height H st) : PagInv height H (bs.foldl (pagStep height H) st) := by
  induction bs generalizing st with
  | nil => exact inv
  | cons b bs ih => exact ih _ (pagStep_inv height H st b inv)

/-- The initial state satisfies the invariant. -/
theorem initPagState_inv (height : TextBlock → Nat) (H : Nat) :
    PagInv height H initPagState := by
  refine ⟨⟨rfl, Or.inl (Nat.zero_le H), ?_, rfl, rfl⟩, Nat.le_refl 1, Nat.le_refl 1,
    Nat.le_refl 1⟩
  intro p hp
  simp [initPagState] at hp

/-- Every loop iteration leaves at least the consumed block on the
current page. -/
theorem pagStep_cur_ne (height : TextBlock → Nat) (H : Nat) (st : PagState) (b : TextBlock) :
    (pagStep height H st b).cur_blocks ≠ [] := by
  unfold pagStep
  dsimp only
  simp

/-- After consuming a nonempty stream the current page is nonempty. -/
theorem foldl_cur_ne (height : TextBlock → Nat) (H : Nat) (bs : List TextBlock) (st : PagState)
    (hbs : bs ≠ []) : (bs.foldl (pagStep height H) st).cur_blocks ≠ [] := by
  induction bs generalizing st with
  | nil => exact absurd rfl hbs
  | cons b bs ih =>
    cases bs with
    | nil => simpa using pagStep_cur_ne height H st b
    | cons b' bs' => exact ih (pagStep height H st b) (by simp)

/-! ## C8: page-level invariants of the paginator -/

/-- C8: each produced page's estimated height sum is at most the content
height, except a single block taller than a full page, which stands alone
on its page (and is allowed to overflow); page numbers are contiguous
starting at 1; and no block is split across pages (the pages concatenate
back to the input). -/
theorem paginate_page_invariants (height : TextBlock → Nat) (H : Nat)
    (bs : List TextBlock) :
    (∀ p ∈ (paginate height H bs).pages,
      blockHeights height p.blocks ≤ H ∨ (∃ b, p.blocks = [b] ∧ H < height b)) ∧
    (paginate height H bs).pages.map PageContent.page_number =
      List.range' 1 (paginate height H bs).total_pages ∧
    ((paginate height H bs).pages.map PageContent.blocks).flatten = bs := by
  have inv := foldl_inv height H bs initPagState (initPagState_inv height H)
  set st := bs.foldl (pagStep height H) initPagState with hst
  have weaken : ∀ p : PageContent, blockHeights height p.blocks ≤ H ∨ p.blocks.length = 1 →
      blockHeights height p.blocks ≤ H ∨ (∃ b, p.blocks = [b] ∧ H < height b) := by
    intro p hp
    rcases hp with hp | hp
    · exact Or.inl hp
    · obtain ⟨b, hb⟩ := List.length_eq_one.mp hp
      by_cases hH : blockHeights height p.blocks ≤ H
      · exact Or.inl hH
      · refine Or.inr ⟨b, hb, ?_⟩
        rw [hb] at hH
        simp [blockHeights] at hH
        omega
  constructor
  · intro p hp
    have hpages : (paginate height H bs).pages =
        if st.cur_blocks.isEmpty then st.pages else st.pages ++ [mkPage st] := rfl
    rw [hpages] at hp
    apply weaken
    by_cases hemp : st.cur_blocks.isEmpty
    · rw [if_pos hemp] at hp
      exact inv.pages_ok p hp
    · rw [if_neg hemp] at hp
      rcases List.mem_append.mp hp with hp | hp
      · exact inv.pages_ok p hp
      · rcases List.mem_singleton.mp hp with rfl
        exact inv.cur_ok
  constructor
  · have hnums := inv.nums
    show (if st.cur_blocks.isEmpty then st.pages else st.pages ++ [mkPage st]).map
        PageContent.page_number =
      List.range' 1 (if st.cur_blocks.isEmpty then st.pages
        else st.pages ++ [mkPage st]).length
    by_cases hemp : st.cur_blocks.isEmpty
    · rw [if_pos hemp]
      exact hnums
    · rw [if_neg hemp]
      rw [List.map_append, List.length_append]
      simp only [List.map_cons, List.map_nil, List.length_cons, List.length_nil]
      rw [List.range'_concat, hnums]
      congr 1
      show [st.page_number] = [1 + 1 * st.pages.length]
      rw [inv.pn_eq]
      simp only [List.cons.injEq, and_true]
      omega
  · exact paginate_preserves_block_sequence height H bs

/-- Witness for C8: the single page produced from the two-heading input
satisfies the height bound. -/
theorem paginate_page_invariants_witness :
    blockHeights cexHeight cexPage.blocks ≤ 740 ∨
      (∃ b, cexPage.blocks = [b] ∧ 740 < cexHeight b) :=
  (paginate_page_invariants cexHeight 740 [cexHeadA, cexHeadB]).1 cexPage (by decide)

/-! ## C1: chapter mappings -/

/-- A non-heading block never touches the chapter bookkeeping. -/
theorem pagStep_no_heading (height : TextBlock → Nat) (H : Nat) (st : PagState)
    (b : TextBlock) (hb : is_chapter_heading b = false) :
    (pagStep height H st b).chapters = st.chapters ∧
    (pagStep height H st b).current_chapter = st.current_chapter := by
  unfold pagStep
  dsimp only
  rw [if_neg (show ¬ (is_chapter_heading b = true) by simp [hb])]
  constructor
  · show (if H < st.cur_y + height b then
        (if st.cur_blocks.isEmpty then st else flushPage st) else st).chapters = st.chapters
    split
    · split <;> rfl
    · rfl
  · show (if H < st.cur_y + height b then
        (if st.cur_blocks.isEmpty then st else flushPage st) else st).current_chapter =
      st.current_chapter
    split
    · split <;> rfl
    · rfl

/-- Without chapter headings the loop records no chapter. -/
theorem foldl_no_heading (height : TextBlock → Nat) (H : Nat) (bs : List TextBlock)
    (st : PagState) (h : ∀ b ∈ bs, is_chapter_heading b = false) :
    (bs.foldl (pagStep height H) st).chapters = st.chapters ∧
    (bs.foldl (pagStep height H) st).current_chapter = st.current_chapter := by
  induction bs generalizing st with
  | nil => exact ⟨rfl, rfl⟩
  | cons b bs ih =>
    have hb := h b (by simp)
    have hrest := ih (pagStep height H st b) (fun b' hb' => h b' (by simp [hb']))
    have hstep := pagStep_no_heading height H st b hb
    exact ⟨hrest.1.trans hstep.1, hrest.2.trans hstep.2⟩

/-- C1 counterexample: two consecutive chapter headings (realistic block
heights from the reference configuration, content height 740).  The run
produces two pages but only one mapping, `⟨"B", 2, 2⟩`: page 1 — the page
holding the first chapter's heading — is covered by no mapping, so the
mappings do not cover `[1, totalPages]` although chapter-level headings
exist. -/
theorem chapter_coverage_counterexample :
    is_chapter_heading cexHeadA = true ∧
    (paginate cexHeight 740 [cexHeadA, cexHeadB]).total_pages = 2 ∧
    (paginate cexHeight 740 [cexHeadA, cexHeadB]).chapters = [⟨"B", 2, 2⟩] ∧
    ¬ (∃ m ∈ (paginate cexHeight 740 [cexHeadA, cexHeadB]).chapters,
        m.start_page ≤ 1 ∧ 1 ≤ m.end_page) := by
  decide

/-- C1 amended: the chapter mappings returned by `paginate` are ordered
by `start_page`, non-overlapping, satisfy `1 ≤ start_page ≤ end_page ≤
totalPages`, and are empty when no chapter-level heading exists; their
union is contained in `[1, totalPages]` but need not cover it (content
before the first chapter, and a chapter superseded while its start page
is still the open page, are left uncovered). -/
theorem chapter_mappings_ordered_disjoint_bounded (height : TextBlock → Nat) (H : Nat)
    (bs : List TextBlock) :
    List.Chain' (fun a b => a.end_page < b.start_page) (paginate height H bs).chapters ∧
    (∀ m ∈ (paginate height H bs).chapters,
      1 ≤ m.start_page ∧ m.start_page ≤ m.end_page ∧
        m.end_page ≤ (paginate height H bs).total_pages) ∧
    ((∀ b ∈ bs, is_chapter_heading b = false) → (paginate height H bs).chapters = []) := by
  have inv := foldl_inv height H bs initPagState (initPagState_inv height H)
  set st := bs.foldl (pagStep height H) initPagState with hst
  have hch : (paginate height H bs).chapters =
      (if strTruthy st.current_chapter then
        st.chapters ++
          [{ title := st.current_chapter.getD "", start_page := st.chapter_start,
             end_page := st.page_number }]
      else st.chapters) := rfl
  have htot : (paginate height H bs).total_pages =
      (if st.cur_blocks.isEmpty then st.pages else st.pages ++ [mkPage st]).length := rfl
  have key : chainFrom 1 (paginate height H bs).chapters
      ((paginate height H bs).total_pages + 1) := by
    rw [hch]
    by_cases htr : strTruthy st.current_chapter
    · rw [if_pos htr]
      have hbs : bs ≠ [] := by
        intro hnil
        rw [hnil] at hst
        rw [hst] at htr
        simp [strTruthy, initPagState] at htr
      have hcur : st.cur_blocks ≠ [] := by
        rw [hst]
        exact foldl_cur_ne height H bs initPagState hbs
      have hemp : ¬ st.cur_blocks.isEmpty := by
        simpa [List.isEmpty_iff] using hcur
      have htot2 : (paginate height H bs).total_pages = st.page_number := by
        rw [htot, if_neg hemp, List.length_append]
        have := inv.pn_eq
        simp only [List.length_cons, List.length_nil]
        omega
      rw [htot2]
      exact chainFrom_snoc st.chapters _ inv.chain (Nat.le_refl _) inv.cs_le
    · rw [if_neg htr]
      have hlen : st.pages.length ≤ (paginate height H bs).total_pages := by
        rw [htot]
        by_cases hemp : st.cur_blocks.isEmpty
        · rw [if_pos hemp]
        · rw [if_neg hemp]
          simp
      refine chainFrom_mono st.chapters inv.chain ?_
      have := inv.cs_le
      have := inv.pn_eq
      omega
  refine ⟨chainFrom_chain' _ key, ?_, ?_⟩
  · intro m hm
    have := chainFrom_forall _ key m hm
    exact ⟨this.1, this.2.1, by omega⟩
  · intro h
    have hnh := foldl_no_heading height H bs initPagState h
    rw [hch]
    have htr : ¬ strTruthy st.current_chapter := by
      rw [hst, hnh.2]
      decide
    rw [if_neg htr, hst, hnh.1]
    rfl

/-- Witness for C1 amended: a heading-free input yields zero mappings. -/
theorem chapter_mappings_witness :
    (paginate cexHeight 740 [cexPara]).chapters = [] :=
  (chapter_mappings_ordered_disjoint_bounded cexHeight 740 [cexPara]).2.2 (by decide)

/-! ## C9: the line wrapper is total, with bounded output -/

/-- One character step grows the line list by at most one. -/
theorem charStep_lines_le (measure : String → Int) (maxW : Int) (acc : List String × List Char)
    (c : Char) : ((charStep measure maxW acc c).1).length ≤ acc.1.length + 1 := by
  unfold charStep
  dsimp only
  split
  · simp
  · split
    · simp
    · simp

/-- The character fallback grows the line list by at most the number of
consumed characters. -/
theorem charFold_lines_le (measure : String → Int) (maxW : Int) (cs : List Char)
    (acc : List String × List Char) :
    ((cs.foldl (charStep measure maxW) acc).1).length ≤ acc.1.length + cs.length := by
  induction cs generalizing acc with
  | nil => simp
  | cons c cs ih =>
    have h1 := charStep_lines_le measure maxW acc c
    have h2 := ih (charStep measure maxW acc c)
    simp only [List.foldl_cons, List.length_cons]
    omega

/-- One word step grows the line list by at most `1 + word.length`. -/
theorem wordStep_lines_le (measure : String → Int) (maxW : Int) (st : WrapState)
    (word : String) :
    ((wordStep measure maxW st word).lines).length ≤ st.lines.length + 1 + word.length := by
  have htl : word.toList.length = word.length := rfl
  by_cases hfit : measure (String.intercalate " " (st.current ++ [word])) ≤ maxW
  · simp only [wordStep, if_pos hfit]
    omega
  · simp only [wordStep, if_neg hfit]
    by_cases hlong : maxW < measure word
    · rw [if_pos hlong]
      dsimp only
      set L1 := if st.current.isEmpty then st.lines
        else st.lines ++ [String.intercalate " " st.current] with hL1
      have hL1len : L1.length ≤ st.lines.length + 1 := by
        rw [hL1]
        split
        · omega
        · simp
      set L2 := if L1.getLast? = some word then L1.dropLast else L1 with hL2
      have hL2len : L2.length ≤ L1.length := by
        rw [hL2]
        split
        · rw [List.length_dropLast]
          omega
        · exact Nat.le_refl _
      have hfold := charFold_lines_le measure maxW word.toList (L2, [])
      simp only at hfold
      omega
    · rw [if_neg hlong]
      dsimp only
      split
      · omega
      · simp

/-- The word loop grows the line list by at most `1 + length` per word. -/
theorem wordsFold_lines_le (measure : String → Int) (maxW : Int) (ws : List String)
    (st : WrapState) :
    ((ws.foldl (wordStep measure maxW) st).lines).length ≤
      st.lines.length + (ws.map fun w => 1 + w.length).sum := by
  induction ws generalizing st with
  | nil => simp
  | cons w ws ih =>
    have h1 := wordStep_lines_le measure maxW st w
    have h2 := ih (wordStep measure maxW st w)
    simp only [List.foldl_cons, List.map_cons, List.sum_cons]
    omega

/-- C9: for every text, measure function and positive width budget,
`wrap_text` returns a finite line list bounded by one line per word plus
one line per character, and the character-level fallback always accepts
the current character into the open line (it is the last character of the
new accumulator even when it alone overflows), so the wrap cannot loop
forever. -/
theorem wrap_text_total_bounded (measure : String → Int) (text : String) (maxW : Int)
    (_hpos : 0 < maxW) :
    (wrap_text measure text maxW).length ≤ wrapSizeBound text ∧
    (∀ lines cur c, ((charStep measure maxW (lines, cur) c).2).getLast? = some c) := by
  constructor
  · have hf := wordsFold_lines_le measure maxW (splitWords text) ⟨[], []⟩
    have h0 : (⟨[], []⟩ : WrapState).lines.length = 0 := rfl
    unfold wrap_text wrapSizeBound
    dsimp only
    split
    · omega
    · rw [List.length_append]
      simp only [List.length_cons, List.length_nil]
      omega
  · intro lines cur c
    unfold charStep
    dsimp only
    split
    · simp
    · simp

/-- Witness for C9 at a concrete text and width. -/
theorem wrap_text_total_bounded_witness :
    (0 : Int) < 10 ∧
      (wrap_text zeroMeasure "hello world" 10).length ≤ wrapSizeBound "hello world" :=
  ⟨by decide, (wrap_text_total_bounded zeroMeasure "hello world" 10 (by decide)).1⟩


/-! ## C6: bit-exactness of the 1-bit encoder -/


theorem getD_map_of_lt {a b : Type} (f : a → b) (l : List a) (i : Nat) (hi : i < l.length)
    (d : a) (e : b) : (l.map f).getD i e = f (l.getD i d) := by
  rw [List.getD_eq_getElem _ _ (by simpa using hi), List.getElem_map,
    List.getD_eq_getElem _ _ hi]

theorem flatten_length_uniform (K : Nat) (ls : List (List Nat))
    (hall : ∀ x ∈ ls, x.length = K) : ls.flatten.length = ls.length * K := by
  induction ls with
  | nil => simp
  | cons x ls ih =>
    simp only [List.flatten_cons, List.length_append, List.length_cons]
    rw [hall x (by simp), ih fun y hy => hall y (by simp [hy])]
    ring

theorem flatten_getD_uniform (K : Nat) (ls : List (List Nat))
    (hall : ∀ x ∈ ls, x.length = K) (r i : Nat) (hr : r < ls.length) (hi : i < K) :
    ls.flatten.getD (r * K + i) 0 = (ls.getD r []).getD i 0 := by
  induction ls generalizing r with
  | nil => simp at hr
  | cons x ls ih =>
    have hx : x.length = K := hall x (by simp)
    cases r with
    | zero =>
      simp only [List.flatten_cons, List.getD_cons_zero, Nat.zero_mul, Nat.zero_add]
      exact List.getD_append _ _ _ _ (by omega)
    | succ r =>
      simp only [List.flatten_cons, List.getD_cons_succ, Nat.succ_mul]
      rw [List.getD_append_right _ _ _ _ (by omega)]
      have harith : r * K + K + i - x.length = r * K + i := by omega
      rw [harith]
      exact ih (fun y hy => hall y (by simp [hy])) r (by simpa using hr)

theorem dropTake_getD (l : List Nat) (a n j : Nat) (hj : j < n) :
    ((l.drop a).take n).getD j 0 = l.getD (a + j) 0 := by
  simp only [List.getD]
  rw [List.get?_take hj, List.get?_drop]

theorem packByte_bit (bits : List Nat) (h8 : bits.length = 8) (hb : ∀ x ∈ bits, x ≤ 1)
    (j : Nat) (hj : j < 8) :
    packByte bits / 2 ^ (7 - j) % 2 = bits.getD j 0 := by
  match bits, h8 with
  | [b0, b1, b2, b3, b4, b5, b6, b7], _ =>
    have hb0 : b0 ≤ 1 := hb _ (by simp)
    have hb1 : b1 ≤ 1 := hb _ (by simp)
    have hb2 : b2 ≤ 1 := hb _ (by simp)
    have hb3 : b3 ≤ 1 := hb _ (by simp)
    have hb4 : b4 ≤ 1 := hb _ (by simp)
    have hb5 : b5 ≤ 1 := hb _ (by simp)
    have hb6 : b6 ≤ 1 := hb _ (by simp)
    have hb7 : b7 ≤ 1 := hb _ (by simp)
    simp only [packByte, List.foldl_cons, List.foldl_nil]
    interval_cases j <;> simp [List.getD] <;> omega

theorem padTo8_bits (w : Nat) (row : List Nat) :
    ∀ x ∈ padTo8 w (thresholdRow row), x ≤ 1 := by
  intro x hx
  rcases List.mem_append.mp hx with hx | hx
  · rcases List.mem_map.mp hx with ⟨p, hp, rfl⟩
    split <;> omega
  · rw [List.eq_of_mem_replicate hx]
    omega

theorem padTo8_length (w : Nat) (row : List Nat) (hrow : row.length = w) :
    (padTo8 w (thresholdRow row)).length = (w + 7) / 8 * 8 := by
  simp only [padTo8, thresholdRow, List.length_append, List.length_map,
    List.length_replicate, hrow]
  omega


theorem chunks8_length (l : List Nat) : (chunks8 l).length = (l.length + 7) / 8 := by
  induction l using chunks8.induct with
  | case1 => rw [chunks8]; rfl
  | case2 b bs ih =>
    rw [chunks8]
    simp only [List.length_cons, ih, List.length_drop]
    omega

theorem chunks8_getD (k : Nat) : ∀ l : List Nat, (chunks8 l).getD k [] = (l.drop (8 * k)).take 8 := by
  induction k with
  | zero =>
    intro l
    cases l with
    | nil => rw [chunks8]; rfl
    | cons b bs =>
      rw [chunks8]
      simp [List.take_succ_cons]
  | succ k ih =>
    intro l
    cases l with
    | nil => rw [chunks8]; simp
    | cons b bs =>
      rw [chunks8]
      rw [List.getD_cons_succ, ih (bs.drop 7), List.drop_drop]
      rw [show 8 * (k + 1) = (8 * k + 7) + 1 from by omega, List.drop_succ_cons]
      congr 2
      omega


/-- C6: `encode_xtg_page` emits the 22-byte header followed by exactly
`dataSize = ceil(w/8) * h` packed bytes; bit `c` of row `r` (row-major,
MSB-first, left-to-right, 8 pixels per byte) is 1 exactly when sample
`(r, c)` is ≥ 128 (white), and the padding bits beyond the true width up
to the next multiple of 8 are 0 (black), with the reported width
unchanged in the header. -/
theorem encode_xtg_bit_exact (img : GrayImage) (hwf : img.wf) :
    (encode_xtg_page img).length = 22 + (img.width + 7) / 8 * img.height ∧
    (encode_xtg_page img).take 22 =
      encode_xtg_header img.width img.height ((img.width + 7) / 8 * img.height) ∧
    (∀ r, r < img.height → ∀ c, c < img.width →
      dataBit ((encode_xtg_page img).drop 22) ((img.width + 7) / 8) r c =
        (if 128 ≤ (img.rows.getD r []).getD c 0 then 1 else 0)) ∧
    (∀ r, r < img.height → ∀ c, img.width ≤ c → c < (img.width + 7) / 8 * 8 →
      dataBit ((encode_xtg_page img).drop 22) ((img.width + 7) / 8) r c = 0) := by
  obtain ⟨hlen, hrows⟩ := hwf
  have hml : ∀ x ∈ img.rows.map fun row =>
      (chunks8 (padTo8 img.width (thresholdRow row))).map packByte,
      x.length = (img.width + 7) / 8 := by
    intro x hx
    rcases List.mem_map.mp hx with ⟨row, hrow, rfl⟩
    rw [List.length_map, chunks8_length, padTo8_length img.width row (hrows row hrow)]
    omega
  have hmlen : (img.rows.map fun row =>
      (chunks8 (padTo8 img.width (thresholdRow row))).map packByte).length = img.height := by
    rw [List.length_map, hlen]
  have hflat : (img.rows.map fun row =>
      (chunks8 (padTo8 img.width (thresholdRow row))).map packByte).flatten.length =
      img.height * ((img.width + 7) / 8) := by
    rw [flatten_length_uniform _ _ hml, hmlen]
  have hdata : (img.rows.map fun row =>
      (chunks8 (padTo8 img.width (thresholdRow row))).map packByte).flatten.take
        ((img.width + 7) / 8 * img.height) =
      (img.rows.map fun row =>
        (chunks8 (padTo8 img.width (thresholdRow row))).map packByte).flatten :=
    List.take_of_length_le (by rw [hflat, Nat.mul_comm])
  have hhdr : (encode_xtg_header img.width img.height
      ((img.width + 7) / 8 * img.height)).length = 22 := by
    simp [encode_xtg_header, u32le, u16le, u64le]
  have hE : encode_xtg_page img =
      encode_xtg_header img.width img.height ((img.width + 7) / 8 * img.height) ++
        (img.rows.map fun row =>
          (chunks8 (padTo8 img.width (thresholdRow row))).map packByte).flatten := by
    unfold encode_xtg_page
    dsimp only
    rw [hdata]
  have hdrop : (encode_xtg_page img).drop 22 =
      (img.rows.map fun row =>
        (chunks8 (padTo8 img.width (thresholdRow row))).map packByte).flatten := by
    rw [hE, ← hhdr, List.drop_left]
  have hbyte : ∀ r, r < img.height → ∀ c, c < (img.width + 7) / 8 * 8 →
      dataBit ((encode_xtg_page img).drop 22) ((img.width + 7) / 8) r c =
        (padTo8 img.width (thresholdRow (img.rows.getD r []))).getD c 0 := by
    intro r hr c hc
    have hc8 : c / 8 < (img.width + 7) / 8 := by omega
    have hrlen : r < img.rows.length := by omega
    unfold dataBit
    rw [hdrop, flatten_getD_uniform _ _ hml r (c / 8) (by rw [hmlen]; exact hr) hc8]
    rw [getD_map_of_lt _ img.rows r hrlen [] []]
    have hrowlen : (img.rows.getD r []).length = img.width := by
      apply hrows
      rw [List.getD_eq_getElem _ _ hrlen]
      exact List.getElem_mem hrlen
    have hplen : (padTo8 img.width (thresholdRow (img.rows.getD r []))).length =
        (img.width + 7) / 8 * 8 := padTo8_length _ _ hrowlen
    have hclen : (chunks8 (padTo8 img.width (thresholdRow (img.rows.getD r [])))).length =
        (img.width + 7) / 8 := by
      rw [chunks8_length, hplen]
      omega
    rw [getD_map_of_lt packByte _ (c / 8) (by rw [hclen]; exact hc8) [] 0]
    rw [chunks8_getD]
    have hchunk_len : (((padTo8 img.width (thresholdRow (img.rows.getD r []))).drop
        (8 * (c / 8))).take 8).length = 8 := by
      rw [List.length_take, List.length_drop, hplen]
      omega
    rw [packByte_bit _ hchunk_len
      (fun x hx => padTo8_bits img.width _ x (List.mem_of_mem_drop (List.mem_of_mem_take hx)))
      (c % 8) (by omega)]
    rw [dropTake_getD _ _ _ _ (show c % 8 < 8 by omega)]
    congr 1
    omega
  refine ⟨?_, ?_, ?_, ?_⟩
  · rw [hE, List.length_append, hhdr, hflat]
    ring
  · rw [hE, ← hhdr, List.take_left]
  · intro r hr c hc
    rw [hbyte r hr c (by omega)]
    have hrlen : r < img.rows.length := by omega
    have hrowlen : (img.rows.getD r []).length = img.width := by
      apply hrows
      rw [List.getD_eq_getElem _ _ hrlen]
      exact List.getElem_mem hrlen
    rw [padTo8, List.getD_append _ _ _ _
      (by rw [thresholdRow, List.length_map]; omega)]
    rw [thresholdRow, getD_map_of_lt _ _ c (by omega) 0 0]
  · intro r hr c hwc hc
    rw [hbyte r hr c hc]
    have hrlen : r < img.rows.length := by omega
    have hrowlen : (img.rows.getD r []).length = img.width := by
      apply hrows
      rw [List.getD_eq_getElem _ _ hrlen]
      exact List.getElem_mem hrlen
    rw [padTo8, List.getD_append_right _ _ _ _
      (by rw [thresholdRow, List.length_map]; omega)]
    rw [thresholdRow, List.length_map, hrowlen]
    rw [List.getD_eq_getElem _ _ (by rw [List.length_replicate]; omega)]
    exact List.getElem_replicate ..

/-- Witness for C6 at a 2×1 image: the white sample maps to bit 1, the
black sample to bit 0, and the padding bits are 0. -/
theorem encode_xtg_bit_exact_witness :
    tinyImage.wf ∧
    dataBit ((encode_xtg_page tinyImage).drop 22) 1 0 0 = 1 ∧
    dataBit ((encode_xtg_page tinyImage).drop 22) 1 0 1 = 0 ∧
    dataBit ((encode_xtg_page tinyImage).drop 22) 1 0 7 = 0 :=
  ⟨by constructor <;> decide,
   ((encode_xtg_bit_exact tinyImage ⟨by decide, by decide⟩).2.2.1 0 (by decide) 0
      (by decide)).trans (by decide),
   ((encode_xtg_bit_exact tinyImage ⟨by decide, by decide⟩).2.2.1 0 (by decide) 1
      (by decide)).trans (by decide),
   (encode_xtg_bit_exact tinyImage ⟨by decide, by decide⟩).2.2.2 0 (by decide) 7
      (by decide) (by decide)⟩

end EpubXtc
